import Mathlib

/-!
Shallow embedding of the CDC pipeline in src/main.go (MySQL binlog to
MongoDB audit logger): the retry harness, the two-phase batch commit,
recovery, startup sequencing, row-event translation, the event id, and
the event-document shape.  Go errors are modelled by an inductive type
mirroring the classifications the code branches on; MongoDB outcomes
are injected per attempt as environment parameters.
-/

set_option maxRecDepth 4000

/-- Go error values, as far as the program distinguishes them:
`context.Canceled` and `context.DeadlineExceeded`, `mongo.CommandError`
with a numeric code, net errors exposing `Temporary()`,
`mongo.BulkWriteException` carrying per-write error codes, a single
duplicate-key style `mongo.WriteException`, `fmt.Errorf("...: %w", e)`
wrapping, and anything else. -/
inductive GoErr where
  | canceled
  | deadlineExceeded
  | cmdErr (code : Nat)
  | netErr (temporary : Bool)
  | bulkWriteErr (codes : List Nat)
  | writeErr (code : Nat)
  | wrapped (msg : String) (e : GoErr)
  | other (msg : String)
deriving DecidableEq

/-- Model of `errors.Is(err, context.Canceled) || errors.Is(err, context.DeadlineExceeded)`:
unwraps `%w` wrapping. -/
def GoErr.isCanceledOrDeadline : GoErr → Bool
  | .canceled => true
  | .deadlineExceeded => true
  | .wrapped _ e => e.isCanceledOrDeadline
  | _ => false

/-- Model of `errors.As(err, &cmdErr)` for `*mongo.CommandError`. -/
def GoErr.asCmdErr : GoErr → Option Nat
  | .cmdErr c => some c
  | .wrapped _ e => e.asCmdErr
  | _ => none

/-- Model of `errors.As(err, &netErr)` for `interface{ Temporary() bool }`. -/
def GoErr.asNetTemporary : GoErr → Option Bool
  | .netErr t => some t
  | .wrapped _ e => e.asNetTemporary
  | _ => none

/-- The transient-error classification in `retryWithBackoff`
(src/main.go lines 106-117): MongoDB command errors 64 (WriteConcernFailed),
10107 (NotMaster), 13435 (NotMasterOrSecondary), or a net error whose
`Temporary()` reports true. -/
def isTransientErr (e : GoErr) : Bool :=
  match e.asCmdErr with
  | some c => c == 64 || c == 10107 || c == 13435
  | none =>
    match e.asNetTemporary with
    | some t => t
    | none => false

/-- Result of a run of the retry harness: final error (`none` = success),
number of executions of the operation, the completed backoff sleeps in
milliseconds in order, and the final state threaded through the
(possibly effectful) operation. -/
structure RetryRes (σ : Type) where
  result : Option GoErr
  execs : Nat
  sleeps : List Nat
  state : σ
deriving DecidableEq

/-- The loop body of `retryWithBackoff` (src/main.go lines 91-142).
`fuel` is `maxRetries + 1 - attempt`; the Go loop runs
`for attempt := 0; attempt <= maxRetries; attempt++`.  `fn` is the
retried operation, indexed by attempt and threading a state; `ctxDoneAt
j` tells whether `ctx.Done()` fires during the sleep after attempt `j`.
Delay doubling is applied after each sleep and capped at 10000 ms. -/
def retryGo {σ : Type} (fn : Nat → σ → Option GoErr × σ) (ctxDoneAt : Nat → Bool)
    (maxRetries : Nat) :
    Nat → Nat → Nat → List Nat → Nat → Option GoErr → σ → RetryRes σ
  | 0, _, _, acc, execs, lastErr, st => ⟨lastErr, execs, acc.reverse, st⟩
  | fuel+1, attempt, delay, acc, execs, lastErr, st =>
    match fn attempt st with
    | (none, st2) => ⟨none, execs + 1, acc.reverse, st2⟩
    | (some e, st2) =>
      if e.isCanceledOrDeadline then ⟨some e, execs + 1, acc.reverse, st2⟩
      else if maxRetries ≤ attempt ∨ isTransientErr e = false then
        ⟨some e, execs + 1, acc.reverse, st2⟩
      else if ctxDoneAt attempt then ⟨some .canceled, execs + 1, acc.reverse, st2⟩
      else
        retryGo fn ctxDoneAt maxRetries fuel (attempt + 1)
          (min (delay * 2) 10000) (delay :: acc) (execs + 1) (some e) st2

/-- Model of `retryWithBackoff` (src/main.go lines 80-145), including the
defaulting of non-positive `maxRetries` to 5 and non-positive
`initialDelay` to 100 ms. -/
def retryWithBackoff {σ : Type} (fn : Nat → σ → Option GoErr × σ) (ctxDoneAt : Nat → Bool)
    (maxRetries : Int) (initialDelay : Int) (st : σ) : RetryRes σ :=
  let mR : Nat := if maxRetries ≤ 0 then 5 else maxRetries.toNat
  let d0 : Nat := if initialDelay ≤ 0 then 100 else initialDelay.toNat
  retryGo fn ctxDoneAt mR (mR + 1) 0 d0 [] 0 none st

/-- `retryWithBackoff` specialised to an operation whose control-relevant
behaviour is the attempt-indexed error it returns. -/
def retryWithBackoffP (fn : Nat → Option GoErr) (ctxDoneAt : Nat → Bool)
    (maxRetries : Int) (initialDelay : Int) : RetryRes Unit :=
  retryWithBackoff (fun a _ => (fn a, ())) ctxDoneAt maxRetries initialDelay ()

/-- The delay slept before retry `i + 1`: starts at the initial delay and
doubles after each sleep, capped at 10000 ms after each doubling. -/
def backoffSleep (d0 : Nat) : Nat → Nat
  | 0 => d0
  | i+1 => min (backoffSleep d0 i * 2) 10000

/-- The first `k` sleeps emitted when the current delay is `d`. -/
def backoffChain (d : Nat) : Nat → List Nat
  | 0 => []
  | k+1 => d :: backoffChain (min (d * 2) 10000) k

/-- Decidable form of: the attempt result makes the loop continue to a
further attempt (a failure that is neither cancellation nor terminal). -/
def continuesRetry : Option GoErr → Bool
  | none => false
  | some e => !e.isCanceledOrDeadline && isTransientErr e

/-- Fueled decimal rendering of a natural number, most significant digit
first, mirroring the decimal output of the `%d` verb of `fmt.Sprintf`.
The fuel argument only makes the recursion structural; `natDec` supplies
enough fuel for it never to run out. -/
def natDecAux : Nat → Nat → List Char
  | 0, _ => []
  | fuel+1, n =>
    if n < 10 then [Nat.digitChar n]
    else natDecAux fuel (n / 10) ++ [Nat.digitChar (n % 10)]

/-- Decimal digit string of a natural number (the `%d` rendering). -/
def natDec (n : Nat) : List Char := natDecAux (n + 1) n

/-- Decimal rendering of an integer (the `%d` rendering of a signed Go
integer): a leading minus sign for negative values. -/
def intDec (i : Int) : List Char :=
  if i < 0 then Char.ofNat 45 :: natDec (-i).toNat else natDec i.toNat

/-- String form of `natDec`. -/
def natDecS (n : Nat) : String := String.mk (natDec n)

/-- String form of `intDec`. -/
def intDecS (i : Int) : String := String.mk (intDec i)

/-- The staging batch id computed once per `writeBatchWithGTID` call
(src/main.go line 182): `fmt.Sprintf("%s_%d_%s", source, time.Now().UnixNano(), gtid)`.
`nowNano` is the nanosecond timestamp captured at that line, before the
retry loop is entered. -/
def mkBatchID (source : String) (nowNano : Int) (gtid : String) : String :=
  source ++ "_" ++ intDecS nowNano ++ "_" ++ gtid

/-- Outcome of one call of `writeBatchWithTransaction` as the caller in
`writeBatchWithGTID` distinguishes it (src/main.go lines 202-220): success,
an error whose text contains one of the two transaction-unsupported
messages, or any other error. -/
inductive P2Outcome where
  | ok
  | txUnsupported
  | fail (e : GoErr)
deriving DecidableEq

/-- One attempt of the retried unit inside `writeBatchWithGTID`
(src/main.go lines 195-226), acting on the set of staged batch ids.
The staging insert targets the fixed `batchID`; MongoDB rejects a
duplicate `_id` with a duplicate-key write error (code 11000), which the
code wraps as `staging insert: ...`.  `stagingEnv`, `p2` and
`fallbackEnv` inject the per-attempt environment outcomes of the
staging insert, of `writeBatchWithTransaction`, and of
`writeBatchWithoutTransaction`.  The best-effort mark update of the
staging status is fire-and-forget in the source and does not affect the
returned error. -/
def commitAttempt (batchID : String) (stagingEnv : Nat → Option GoErr)
    (p2 : Nat → P2Outcome) (fallbackEnv : Nat → Option GoErr)
    (attempt : Nat) (staged : List String) : Option GoErr × List String :=
  if staged.contains batchID then
    (some (.wrapped "staging insert" (.writeErr 11000)), staged)
  else
    match stagingEnv attempt with
    | some e => (some (.wrapped "staging insert" e), staged)
    | none =>
      let staged2 := batchID :: staged
      match p2 attempt with
      | .ok => (none, staged2)
      | .txUnsupported =>
        match fallbackEnv attempt with
        | none => (none, staged2)
        | some e => (some (.wrapped "write batch (non-transactional fallback)" e), staged2)
      | .fail e => (some e, staged2)

/-- Model of `writeBatchWithGTID` (src/main.go lines 176-227): empty
batches return immediately; otherwise the batch id is computed once from
`(source, nowNano, gtid)` and the whole stage-commit-mark unit is run
under `retryWithBackoff` with maxRetries 5 and initial delay 100 ms. -/
def writeBatchWithGTID (docsLen : Nat) (source : String) (gtid : String) (nowNano : Int)
    (stagingEnv : Nat → Option GoErr) (p2 : Nat → P2Outcome)
    (fallbackEnv : Nat → Option GoErr) (ctxDoneAt : Nat → Bool)
    (staged0 : List String) : RetryRes (List String) :=
  if docsLen = 0 then ⟨none, 0, [], staged0⟩
  else
    retryWithBackoff
      (commitAttempt (mkBatchID source nowNano gtid) stagingEnv p2 fallbackEnv)
      ctxDoneAt 5 100 staged0

/-- Outcome of the bulk insert of the events batch as the code
distinguishes it: success, a `mongo.BulkWriteException` carrying the
codes of the individual write errors, or an error of any other type. -/
inductive BulkResult where
  | ok
  | bulkErr (codes : List Nat)
  | otherErr (e : GoErr)
deriving DecidableEq

/-- The `allDup` scan (src/main.go lines 159-165 and twins): true iff
every individual write error has code 11000 (duplicate key). -/
def allDuplicateKey (codes : List Nat) : Bool :=
  codes.all (fun c => c == 11000)

/-- Model of the transaction body of `writeBatchWithTransaction`
(src/main.go lines 276-317): bulk-insert the events; a
`BulkWriteException` whose write errors are all duplicate-key is
absorbed and the offset upsert proceeds; any other bulk error aborts
with that error and the upsert is not attempted.  Returns the
transaction error paired with whether the offset upsert was reached.
`upsertErr` injects the outcome of the offset `UpdateByID` upsert. -/
def writeBatchWithTransaction (bulk : BulkResult) (upsertErr : Option GoErr) :
    Option GoErr × Bool :=
  match bulk with
  | .ok =>
    match upsertErr with
    | none => (none, true)
    | some e => (some (.wrapped "save GTID" e), true)
  | .bulkErr codes =>
    if allDuplicateKey codes then
      match upsertErr with
      | none => (none, true)
      | some e => (some (.wrapped "save GTID" e), true)
    else (some (.bulkWriteErr codes), false)
  | .otherErr e => (some e, false)

/-- Model of `writeBatchWithoutTransaction` (src/main.go lines 325-366):
same duplicate-absorption logic, with the non-transactional error
wrapping of the source. -/
def writeBatchWithoutTransaction (bulk : BulkResult) (upsertErr : Option GoErr) :
    Option GoErr × Bool :=
  match bulk with
  | .ok =>
    match upsertErr with
    | none => (none, true)
    | some e => (some (.wrapped "save GTID (non-transactional)" e), true)
  | .bulkErr codes =>
    if allDuplicateKey codes then
      match upsertErr with
      | none => (none, true)
      | some e => (some (.wrapped "save GTID (non-transactional)" e), true)
    else (some (.wrapped "bulk write events" (.bulkWriteErr codes)), false)
  | .otherErr e => (some (.wrapped "bulk write events" e), false)

/-- Model of `writeBatch` (src/main.go lines 147-173): empty batches are
a no-op; a bulk error that is all duplicate-key returns nil; anything
else is returned. -/
def writeBatch (docsLen : Nat) (bulk : BulkResult) : Option GoErr :=
  if docsLen = 0 then none
  else
    match bulk with
    | .ok => none
    | .bulkErr codes => if allDuplicateKey codes then none else some (.bulkWriteErr codes)
    | .otherErr e => some e

/-- A generic binlog column value; `reflect.DeepEqual` on row values is
modelled by decidable equality on this type.  `vnull` is a Go nil. -/
inductive Val where
  | vnull
  | vint (n : Int)
  | vstr (s : String)
deriving DecidableEq

/-- The per-column change record (struct `Delta`, src/main.go lines 28-31):
`f` and `t` are the before and after values, `none` standing for nil. -/
structure DeltaM where
  f : Option Val
  t : Option Val
deriving DecidableEq

/-- The change map built by the insert branch of `OnRow`
(src/main.go lines 544-557): for each index below
`min (len colNames) (len row)`, an entry `colNames[i] -> {F: nil, T: row[i]}`,
in index order. -/
def insertChg (colNames : List String) (row : List Val) : List (String × DeltaM) :=
  (colNames.zip row).map (fun cv => (cv.1, ⟨none, some cv.2⟩))

/-- The change map built by the delete branch of `OnRow`
(src/main.go lines 558-571): `colNames[i] -> {F: row[i], T: nil}` for each
index below `min (len colNames) (len row)`. -/
def deleteChg (colNames : List String) (row : List Val) : List (String × DeltaM) :=
  (colNames.zip row).map (fun cv => (cv.1, ⟨some cv.2, none⟩))

/-- The change map built by the update branch of `OnRow`
(src/main.go lines 572-591): for each index below
`min (len colNames) (min (len before) (len after))`, an entry only when the
before and after values differ under `reflect.DeepEqual`. -/
def updateChg (colNames : List String) (before after : List Val) :
    List (String × DeltaM) :=
  ((colNames.zip (before.zip after)).filter
      (fun x => !(x.2.1 == x.2.2))).map
    (fun x => (x.1, ⟨some x.2.1, some x.2.2⟩))

/-- The update branch pairing of `OnRow` (src/main.go lines 573-574):
`for i := 0; i < len(e.Rows); i += 2` reads `e.Rows[i]` and `e.Rows[i+1]`.
A slice access out of range panics in Go; the panic is modelled by
`none`, so `some pairs` means every access was in bounds. -/
def updatePairs : List (List Val) → Option (List (List Val × List Val))
  | [] => some []
  | [_] => none
  | b :: a :: rest => (updatePairs rest).map (fun ps => (b, a) :: ps)

/-- The string hashed by `makeID` (src/main.go lines 450-454):
`fmt.Sprintf("%s|%s|%v|%d|%s|%s|%d", db, tbl, pk, ts.UnixNano(), op, file, gtid, pos)`.
The format string has seven verbs for eight arguments, so `gtid`
(a string) meets the `%d` verb and is rendered by Go as
`%!d(string=<gtid>)`, and the trailing `pos` argument is appended by Go
as `%!(EXTRA uint64=<pos>)`.  `pk` is the `%v` rendering of the primary
key value, and `tsNano` is `ts.UnixNano()`. -/
def makeIDString (db tbl pk : String) (tsNano : Int) (op file : String)
    (pos : Nat) (gtid : String) : String :=
  db ++ "|" ++ tbl ++ "|" ++ pk ++ "|" ++ intDecS tsNano ++ "|" ++ op ++ "|"
    ++ file ++ "|" ++ "%!d(string=" ++ gtid ++ ")" ++ "%!(EXTRA uint64="
    ++ natDecS pos ++ ")"

/-- Civil date from a day count relative to 1970-01-01, proleptic
Gregorian calendar (the calendar used by `time.Time.Format`); returns
(year, month, day). -/
def civilFromDays (z0 : Int) : Int × Nat × Nat :=
  let z := z0 + 719468
  let era := Int.ediv z 146097
  let doe : Nat := (Int.emod z 146097).toNat
  let yoe : Nat := (doe - doe / 1460 + doe / 36524 - doe / 146096) / 365
  let y : Int := (yoe : Int) + era * 400
  let doy : Nat := doe - (365 * yoe + yoe / 4 - yoe / 100)
  let mp : Nat := (5 * doy + 2) / 153
  let d : Nat := doy - (153 * mp + 2) / 5 + 1
  let m : Nat := if mp < 10 then mp + 3 else mp - 9
  (if m ≤ 2 then y + 1 else y, m, d)

/-- Left-pad a digit list with zeros to width `w`. -/
def padZero (w : Nat) (l : List Char) : List Char :=
  List.replicate (w - l.length) (Char.ofNat 48) ++ l

/-- Zero-padded decimal of width (at least) `w`. -/
def natDecPad (w : Nat) (n : Nat) : List Char := padZero w (natDec n)

/-- Model of `ts.In(loc).Format("2006-01-02 15:04:05")` for a fixed-offset
timezone `offsetSec` (the configured `TZ`; Asia/Kolkata is +19800 s) and
a Unix-seconds timestamp, using the proleptic Gregorian calendar. -/
def formatTS (offsetSec : Int) (unixSec : Int) : String :=
  let t := unixSec + offsetSec
  let days := Int.ediv t 86400
  let secs : Nat := (Int.emod t 86400).toNat
  let c := civilFromDays days
  String.mk (natDecPad 4 c.1.toNat ++ Char.ofNat 45 :: natDecPad 2 c.2.1
    ++ Char.ofNat 45 :: natDecPad 2 c.2.2
    ++ Char.ofNat 32 :: natDecPad 2 (secs / 3600)
    ++ Char.ofNat 58 :: natDecPad 2 (secs % 3600 / 60)
    ++ Char.ofNat 58 :: natDecPad 2 (secs % 60))

/-- The civil year displayed for a Unix timestamp under offset
`offsetSec`. -/
def civilYear (offsetSec unixSec : Int) : Int :=
  (civilFromDays (Int.ediv (unixSec + offsetSec) 86400)).1

/-- The civil (year, month, day) displayed for a Unix timestamp under
offset `offsetSec`. -/
def civilDateOf (offsetSec unixSec : Int) : Int × Nat × Nat :=
  civilFromDays (Int.ediv (unixSec + offsetSec) 86400)

/-- The second-of-day displayed for a Unix timestamp under offset
`offsetSec`. -/
def daySecsOf (offsetSec unixSec : Int) : Nat :=
  (Int.emod (unixSec + offsetSec) 86400).toNat

/-- The event document built by `addDoc` inside `OnRow`
(src/main.go lines 517-526, struct at lines 36-45).  `pk` is kept as the
rendered primary-key value, `chg` as the assembled change list, and
`tsIST` is the display timestamp string stored under bson tag `ts_ist`. -/
structure EventDocM where
  id : String
  ts : Int
  op : String
  metaDb : String
  metaTbl : String
  pk : String
  chg : List (String × DeltaM)
  srcFile : String
  srcPos : Nat
  srcGtid : String
  tsIST : String
deriving DecidableEq

/-- Model of the `addDoc` closure (src/main.go lines 517-526): the
document carries the id string hashed by `makeID`, the UTC timestamp,
op, meta, change map, binlog coordinates, and the display timestamp
`ts.In(h.loc).Format("2006-01-02 15:04:05")`.  `tsNano` is
`ts.UnixNano()` and `tsSec` the same instant in seconds. -/
def addDoc (locOffset : Int) (db tbl : String) (tsSec : Int) (pk : String)
    (chg : List (String × DeltaM)) (op lastFile : String) (lastPos : Nat)
    (lastGTID : String) : EventDocM :=
  { id := makeIDString db tbl pk (tsSec * 1000000000) op lastFile lastPos lastGTID
    ts := tsSec
    op := op
    metaDb := db
    metaTbl := tbl
    pk := pk
    chg := chg
    srcFile := lastFile
    srcPos := lastPos
    srcGtid := lastGTID
    tsIST := formatTS locOffset tsSec }

/-- The bson field names of an `EventDoc` as serialized by the driver,
from the struct tags at src/main.go lines 36-45: `_id`, `ts`, `op`,
`meta`, `seq`, then `chg`, `src`, `ts_ist` each tagged `omitempty` and
present only when nonempty. -/
def eventDocBsonFields (d : EventDocM) : List String :=
  ["_id", "ts", "op", "meta", "seq"]
    ++ (if d.chg.isEmpty then [] else ["chg"])
    ++ ["src"]
    ++ (if d.tsIST = "" then [] else ["ts_ist"])

/-- A staging collection document as Recovery sees it: `_id` (batch id),
`status`, and the archive timestamp if any. -/
structure StagingDocM where
  id : String
  status : String
  archivedAt : Option Int
deriving DecidableEq

/-- The `$set` applied by Recovery to one pending document
(src/main.go lines 387-392): status `archived` plus `archivedAt`. -/
def archiveDoc (now : Int) (d : StagingDocM) : StagingDocM :=
  { d with status := "archived", archivedAt := some now }

/-- The three collections owned by the sink. -/
structure StoreState where
  events : List EventDocM
  offsets : List (String × String)
  staging : List StagingDocM
deriving DecidableEq

/-- Model of `RecoverPendingBatches` (src/main.go lines 370-397): every
staging document with status `pending` is updated to `archived` with an
archive timestamp; the function touches no other collection — it never
inserts into `events` and never updates `offsets`. -/
def RecoverPendingBatches (now : Int) (st : StoreState) : StoreState :=
  { st with
    staging := st.staging.map (fun d =>
      if d.status = "pending" then archiveDoc now d else d) }

/-- The observable actions of the startup goroutine in `main`
(src/main.go lines 707-739), in program order. -/
inductive StartAction where
  | runRecovery
  | logRecoveryWarning
  | startReaderFromSaved
  | startReaderFromMaster
  | reportError
deriving DecidableEq

/-- Whether an action starts the binlog reader. -/
def StartAction.isReaderStart : StartAction → Bool
  | .startReaderFromSaved => true
  | .startReaderFromMaster => true
  | _ => false

/-- The part of the startup goroutine after the recovery call
(src/main.go lines 715-738): resume from the saved GTID when one was
loaded and nonempty, else from the current master GTID set; parse and
start errors go to the error channel. -/
def readerPhase (gtidStr : String) (ok : Bool) (parseOK : Bool)
    (masterOK : Bool) (startOK : Bool) : List StartAction :=
  if ok ∧ gtidStr ≠ "" then
    if parseOK then
      if startOK then [.startReaderFromSaved]
      else [.startReaderFromSaved, .reportError]
    else [.reportError]
  else
    if masterOK then
      if startOK then [.startReaderFromMaster]
      else [.startReaderFromMaster, .reportError]
    else [.reportError]

/-- The startup goroutine of `main` (src/main.go lines 707-739): run
`RecoverPendingBatches`; when it fails, log a warning and continue —
the source comment says not to fail startup and to continue with
replication — then enter the reader phase. -/
def startupGoroutine (recoveryErr : Option GoErr) (gtidStr : String) (ok : Bool)
    (parseOK : Bool) (masterOK : Bool) (startOK : Bool) : List StartAction :=
  (match recoveryErr with
   | some _ => [StartAction.runRecovery, StartAction.logRecoveryWarning]
   | none => [StartAction.runRecovery])
    ++ readerPhase gtidStr ok parseOK masterOK startOK

/-- The handler state touched by `OnTableChanged` (src/main.go lines
399-418): the schema cache and the in-memory batch.  `batchGTID`,
`batchFile` and `batchPos` are carried along for the flush call. -/
structure HandlerState where
  tableSchemas : List (String × List String)
  batch : List EventDocM
deriving DecidableEq

/-- Model of `Handler.Flush` (src/main.go lines 423-433): an empty batch
is a no-op; otherwise the batch is written through `writeBatchWithGTID`
whose outcome is injected as `flushEnv`, and on success the batch is
cleared (`h.batch = h.batch[:0]`), on failure kept and the error
returned wrapped as `flush batch: ...`. -/
def flushStep (flushEnv : Option GoErr) (st : HandlerState) :
    HandlerState × Option GoErr :=
  if st.batch.isEmpty then (st, none)
  else
    match flushEnv with
    | none => ({ st with batch := [] }, none)
    | some e => (st, some (.wrapped "flush batch" e))

/-- Model of `OnTableChanged` (src/main.go lines 619-629): delete the
schema-cache entry for `schema.table`, flush the batch, log a flush
failure without propagating it, and return nil unconditionally. -/
def onTableChanged (flushEnv : Option GoErr) (st : HandlerState)
    (schema table : String) : HandlerState × Option GoErr :=
  let key := schema ++ "." ++ table
  let st1 : HandlerState :=
    { st with tableSchemas := st.tableSchemas.filter (fun kv => kv.1 ≠ key) }
  let st2 := (flushStep flushEnv st1).1
  (st2, none)

theorem retryGo_execs_le {σ : Type} (fn : Nat → σ → Option GoErr × σ) (cd : Nat → Bool)
    (mR : Nat) :
    ∀ (fuel a d : Nat) (acc : List Nat) (ex : Nat) (le : Option GoErr) (st : σ),
      (retryGo fn cd mR fuel a d acc ex le st).execs ≤ ex + fuel := by
  intro fuel
  induction fuel with
  | zero => intro a d acc ex le st; simp [retryGo]
  | succ f ih =>
    intro a d acc ex le st
    rw [retryGo]
    split
    · simp
    · split
      · simp
      · split
        · simp
        · split
          · simp
          · exact le_trans (ih ..) (by omega)

theorem retryGo_sleeps_chain {σ : Type} (fn : Nat → σ → Option GoErr × σ) (cd : Nat → Bool)
    (mR : Nat) :
    ∀ (fuel a d : Nat) (acc : List Nat) (ex : Nat) (le : Option GoErr) (st : σ),
      ∃ k, (retryGo fn cd mR fuel a d acc ex le st).sleeps
            = acc.reverse ++ backoffChain d k := by
  intro fuel
  induction fuel with
  | zero =>
    intro a d acc ex le st
    exact ⟨0, by simp [retryGo, backoffChain]⟩
  | succ f ih =>
    intro a d acc ex le st
    rw [retryGo]
    rcases hfa : fn a st with ⟨err, st2⟩
    cases err with
    | none => exact ⟨0, by simp [backoffChain]⟩
    | some e =>
      by_cases hc : e.isCanceledOrDeadline
      · exact ⟨0, by simp [hc, backoffChain]⟩
      · by_cases hstop : mR ≤ a ∨ isTransientErr e = false
        · exact ⟨0, by simp [hc, hstop, backoffChain]⟩
        · by_cases hdone : cd a
          · exact ⟨0, by simp [hc, hstop, hdone, backoffChain]⟩
          · obtain ⟨k, hk⟩ := ih (a + 1) (min (d * 2) 10000) (d :: acc) (ex + 1)
              (some e) st2
            refine ⟨k + 1, ?_⟩
            simp only [hc, hstop, hdone, if_false, Bool.false_eq_true, reduceIte]
            simpa [backoffChain, List.append_assoc] using hk

theorem backoffSleep_shift (d0 : Nat) :
    ∀ i, backoffSleep (min (d0 * 2) 10000) i = backoffSleep d0 (i + 1) := by
  intro i
  induction i with
  | zero => rfl
  | succ i ih => rw [backoffSleep, ih]; rfl

theorem backoffChain_eq_map : ∀ (k d0 : Nat),
    backoffChain d0 k = (List.range k).map (backoffSleep d0) := by
  intro k
  induction k with
  | zero => intro d0; simp [backoffChain]
  | succ k ih =>
    intro d0
    rw [backoffChain, ih (min (d0 * 2) 10000), List.range_succ_eq_map]
    simp only [List.map_cons, List.map_map]
    refine congrArg₂ _ rfl (List.map_congr_left ?_)
    intro i _
    simpa using backoffSleep_shift d0 i

theorem backoffSleep_eq_min (d0 : Nat) (hd : d0 ≤ 10000) :
    ∀ i, backoffSleep d0 i = min (d0 * 2 ^ i) 10000 := by
  intro i
  induction i with
  | zero => simp [backoffSleep]; omega
  | succ i ih =>
    rw [backoffSleep, ih]
    rcases le_or_lt (d0 * 2 ^ i) 10000 with h | h
    · rw [Nat.min_eq_left h, pow_succ]
      ring_nf
    · rw [Nat.min_eq_right (le_of_lt h)]
      have h2 : 10000 ≤ d0 * 2 ^ (i + 1) := by
        calc (10000 : Nat) ≤ d0 * 2 ^ i := le_of_lt h
          _ ≤ d0 * 2 ^ (i + 1) :=
            Nat.mul_le_mul_left _ (Nat.pow_le_pow_right (by norm_num) (Nat.le_succ i))
      rw [Nat.min_eq_right h2]
      omega

theorem retryGoP_reach (fn0 : Nat → Option GoErr) (cd : Nat → Bool) (mR : Nat) :
    ∀ (i fuel a d : Nat) (acc : List Nat) (ex : Nat) (le : Option GoErr),
      i < fuel → a + i ≤ mR →
      (∀ j, j < i → continuesRetry (fn0 (a + j)) = true ∧ cd (a + j) = false) →
      ∀ e, fn0 (a + i) = some e →
        (e.isCanceledOrDeadline = true ∨ isTransientErr e = false) →
        (retryGo (fun a2 _ => (fn0 a2, ())) cd mR fuel a d acc ex le ()).result = some e
          ∧ (retryGo (fun a2 _ => (fn0 a2, ())) cd mR fuel a d acc ex le ()).execs
              = ex + i + 1 := by
  intro i
  induction i with
  | zero =>
    intro fuel a d acc ex le hfuel ha hpre e he hclass
    obtain ⟨f, rfl⟩ : ∃ f, fuel = f + 1 := ⟨fuel - 1, by omega⟩
    rw [retryGo]
    rw [Nat.add_zero] at he
    simp only [he]
    rcases hclass with h | h
    · simp [h]
    · by_cases hc : e.isCanceledOrDeadline
      · simp [hc]
      · simp [hc, h]
  | succ i ih =>
    intro fuel a d acc ex le hfuel ha hpre e he hclass
    obtain ⟨f, rfl⟩ : ∃ f, fuel = f + 1 := ⟨fuel - 1, by omega⟩
    have h0 := hpre 0 (by omega)
    rw [Nat.add_zero] at h0
    rcases hc0 : fn0 a with _ | e0
    · rw [hc0] at h0; simp [continuesRetry] at h0
    rw [hc0] at h0
    have hcont : e0.isCanceledOrDeadline = false ∧ isTransientErr e0 = true := by
      have := h0.1
      simp [continuesRetry] at this
      exact ⟨by simpa using this.1, this.2⟩
    have hlt : ¬(mR ≤ a) := by omega
    have hred : retryGo (fun a2 _ => (fn0 a2, ())) cd mR (f + 1) a d acc ex le ()
        = retryGo (fun a2 _ => (fn0 a2, ())) cd mR f (a + 1) (min (d * 2) 10000)
            (d :: acc) (ex + 1) (some e0) () := by
      rw [retryGo]
      simp [hc0, hcont.1, hcont.2, hlt, h0.2]
    rw [hred]
    have := ih f (a + 1) (min (d * 2) 10000) (d :: acc) (ex + 1) (some e0)
      (by omega) (by omega)
      (fun j hj => by
        have := hpre (j + 1) (by omega)
        constructor
        · have h1 := this.1
          rw [show a + (j + 1) = a + 1 + j by omega] at h1
          exact h1
        · have h2 := this.2
          rw [show a + (j + 1) = a + 1 + j by omega] at h2
          exact h2)
      e (by rw [show a + 1 + i = a + (i + 1) by omega]; exact he) hclass
    exact ⟨this.1, by rw [this.2]; omega⟩

/-- Claim C6 (corrected).  Under the retry harness with effective maximum
attempt count `N ≥ 1` and effective initial delay `D0 ≥ 1` ms: the
operation is executed at most `N + 1` times; the completed sleeps
follow the doubling schedule `backoffSleep`, whose value before retry
`i + 1` equals `min (D0 * 2 ^ i) 10000` ms for every `i` whenever
`D0 ≤ 10` s (for `D0 > 10` s the first sleep is `D0` itself, uncapped,
because the source caps the delay only after doubling it); an attempt
failing with a context-cancellation or deadline error is returned
immediately with no further attempts; and an attempt failing with a
non-transient error is returned immediately with no further attempts. -/
theorem c6_retry_budget_and_backoff (fn : Nat → Option GoErr) (cd : Nat → Bool)
    (N D0 : Int) (hN : 1 ≤ N) (hD : 1 ≤ D0) :
    (retryWithBackoffP fn cd N D0).execs ≤ N.toNat + 1
    ∧ (retryWithBackoffP fn cd N D0).sleeps
        = (List.range (retryWithBackoffP fn cd N D0).sleeps.length).map
            (backoffSleep D0.toNat)
    ∧ (D0 ≤ 10000 → ∀ i, backoffSleep D0.toNat i = min (D0.toNat * 2 ^ i) 10000)
    ∧ (∀ i e, i ≤ N.toNat →
        (∀ j, j < i → continuesRetry (fn j) = true ∧ cd j = false) →
        fn i = some e → e.isCanceledOrDeadline = true →
        (retryWithBackoffP fn cd N D0).result = some e
          ∧ (retryWithBackoffP fn cd N D0).execs = i + 1)
    ∧ (∀ i e, i ≤ N.toNat →
        (∀ j, j < i → continuesRetry (fn j) = true ∧ cd j = false) →
        fn i = some e → e.isCanceledOrDeadline = false → isTransientErr e = false →
        (retryWithBackoffP fn cd N D0).result = some e
          ∧ (retryWithBackoffP fn cd N D0).execs = i + 1) := by
  have hNe : ¬(N ≤ 0) := by omega
  have hDe : ¬(D0 ≤ 0) := by omega
  have hun : retryWithBackoffP fn cd N D0
      = retryGo (fun a _ => (fn a, ())) cd N.toNat (N.toNat + 1) 0 D0.toNat [] 0 none () := by
    simp [retryWithBackoffP, retryWithBackoff, hNe, hDe]
  refine ⟨?_, ?_, ?_, ?_, ?_⟩
  · rw [hun]
    simpa using retryGo_execs_le (fun a _ => (fn a, ())) cd N.toNat (N.toNat + 1)
      0 D0.toNat [] 0 none ()
  · rw [hun]
    obtain ⟨k, hk⟩ := retryGo_sleeps_chain (fun a _ => (fn a, ())) cd N.toNat
      (N.toNat + 1) 0 D0.toNat [] 0 none ()
    rw [hk]
    simp only [List.reverse_nil, List.nil_append, backoffChain_eq_map]
    simp
  · intro hcap i
    exact backoffSleep_eq_min D0.toNat (by omega) i
  · intro i e hi hpre he hcanc
    rw [hun]
    have := retryGoP_reach fn cd N.toNat i (N.toNat + 1) 0 D0.toNat [] 0 none
      (by omega) (by omega) (fun j hj => by simpa using hpre j hj) e
      (by simpa using he) (Or.inl hcanc)
    exact ⟨this.1, by rw [this.2]; omega⟩
  · intro i e hi hpre he hcanc hterm
    rw [hun]
    have := retryGoP_reach fn cd N.toNat i (N.toNat + 1) 0 D0.toNat [] 0 none
      (by omega) (by omega) (fun j hj => by simpa using hpre j hj) e
      (by simpa using he) (Or.inr hterm)
    exact ⟨this.1, by rw [this.2]; omega⟩

/-- Witness for C6 at a concrete input: a transient failure (command
error 64) on attempt 0 followed by a context-cancellation failure on
attempt 1 returns the cancellation error after exactly two executions. -/
theorem c6_retry_budget_and_backoff_witness :
    (retryWithBackoffP (fun a => if a = 0 then some (.cmdErr 64) else some .canceled)
        (fun _ => false) 5 100).result = some .canceled
    ∧ (retryWithBackoffP (fun a => if a = 0 then some (.cmdErr 64) else some .canceled)
        (fun _ => false) 5 100).execs = 2 :=
  (c6_retry_budget_and_backoff
      (fun a => if a = 0 then some (.cmdErr 64) else some .canceled)
      (fun _ => false) 5 100 (by decide) (by decide)).2.2.2.1
    1 .canceled (by decide) (by decide) (by decide) (by decide)

/-- Counterexample for C6 as stated: with initial delay 20000 ms (a
legal parameter above the 10 s cap) and one retry, the sleep actually
performed before retry 1 is 20000 ms, not `min (D0 * 2 ^ 0) 10000 = 10000`
ms, because the source caps the delay only after doubling it. -/
theorem c6_first_sleep_uncapped_counterexample :
    (retryWithBackoffP (fun _ => some (.cmdErr 64)) (fun _ => false) 1 20000).sleeps
        = [20000]
    ∧ [20000] ≠ [min (20000 * 2 ^ 0) 10000] := by
  exact ⟨by decide, by decide⟩

/-- Claim C1 (code bug).  `writeBatchWithGTID` computes the staging
`batchID` once, before entering `retryWithBackoff` (src/main.go line 182),
so a retry attempt following a successful staging insert re-inserts the
same `_id`: with a non-empty batch whose attempt-0 staging insert
succeeds and whose attempt-0 Phase 2 fails with a transient command
error (code 64), attempt 1 fails at the staging insert with a
duplicate-key error (11000), which is not transient, and the whole
commit fails after 2 executions even though Phase 2 would succeed from
attempt 1 on and 4 retries of the budget remain.  The staging state
shows that a single batch id was used by both attempts. -/
theorem c1_retry_reuses_stale_batchId :
    (writeBatchWithGTID 1 "s" "g" 0 (fun _ => none)
        (fun a => if a = 0 then .fail (.cmdErr 64) else .ok) (fun _ => none)
        (fun _ => false) []).result
      = some (.wrapped "staging insert" (.writeErr 11000))
    ∧ (writeBatchWithGTID 1 "s" "g" 0 (fun _ => none)
        (fun a => if a = 0 then .fail (.cmdErr 64) else .ok) (fun _ => none)
        (fun _ => false) []).execs = 2
    ∧ (writeBatchWithGTID 1 "s" "g" 0 (fun _ => none)
        (fun a => if a = 0 then .fail (.cmdErr 64) else .ok) (fun _ => none)
        (fun _ => false) []).state = [mkBatchID "s" 0 "g"]
    ∧ isTransientErr (.wrapped "staging insert" (.writeErr 11000)) = false := by
  refine ⟨by decide, by decide, by decide, by decide⟩

/-- Claim C2 (confirmed).  For a bulk insert of a batch into the events
collection that fails with a `BulkWriteException`: if every individual
write error has the duplicate-key code 11000, the commit does not fail
on the insert and proceeds to the offset upsert (succeeding whenever
the upsert does), in both the transactional and the non-transactional
paths, and `writeBatch` returns nil; if any write error has a different
code, the transaction aborts with that error and the offset upsert is
not reached (the non-transactional path returns the same error wrapped
as `bulk write events`). -/
theorem c2_duplicate_only_bulk_errors_absorbed :
    (∀ (codes : List Nat) (upsertErr : Option GoErr), allDuplicateKey codes = true →
        (writeBatchWithTransaction (.bulkErr codes) upsertErr).2 = true
        ∧ (upsertErr = none →
            (writeBatchWithTransaction (.bulkErr codes) upsertErr).1 = none)
        ∧ (writeBatchWithoutTransaction (.bulkErr codes) upsertErr).2 = true
        ∧ (upsertErr = none →
            (writeBatchWithoutTransaction (.bulkErr codes) upsertErr).1 = none)
        ∧ (∀ n, writeBatch n (.bulkErr codes) = none))
    ∧ (∀ (codes : List Nat) (upsertErr : Option GoErr) (c : Nat),
        c ∈ codes → c ≠ 11000 →
        writeBatchWithTransaction (.bulkErr codes) upsertErr
            = (some (.bulkWriteErr codes), false)
        ∧ writeBatchWithoutTransaction (.bulkErr codes) upsertErr
            = (some (.wrapped "bulk write events" (.bulkWriteErr codes)), false)
        ∧ (∀ n, 0 < n → writeBatch n (.bulkErr codes) = some (.bulkWriteErr codes))) := by
  constructor
  · intro codes upsertErr hdup
    refine ⟨?_, ?_, ?_, ?_, ?_⟩
    · simp [writeBatchWithTransaction, hdup]
      cases upsertErr <;> simp
    · intro h
      subst h
      simp [writeBatchWithTransaction, hdup]
    · simp [writeBatchWithoutTransaction, hdup]
      cases upsertErr <;> simp
    · intro h
      subst h
      simp [writeBatchWithoutTransaction, hdup]
    · intro n
      rcases n with _ | n <;> simp [writeBatch, hdup]
  · intro codes upsertErr c hc hne
    have hdup : allDuplicateKey codes = false := by
      rcases hall : allDuplicateKey codes with _ | _
      · rfl
      · exfalso
        have := List.all_eq_true.mp hall c hc
        simp at this
        exact hne this
    refine ⟨?_, ?_, ?_⟩
    · simp [writeBatchWithTransaction, hdup]
    · simp [writeBatchWithoutTransaction, hdup]
    · intro n hn
      rcases n with _ | n
      · omega
      · simp [writeBatch, hdup]

/-- Witness for C2 at concrete inputs: two duplicate-key errors are
absorbed; a mixed error list aborts with the bulk error. -/
theorem c2_duplicate_only_bulk_errors_absorbed_witness :
    ((writeBatchWithTransaction (.bulkErr [11000, 11000]) none).1 = none)
    ∧ writeBatchWithTransaction (.bulkErr [11000, 12582]) none
        = (some (.bulkWriteErr [11000, 12582]), false) :=
  ⟨((c2_duplicate_only_bulk_errors_absorbed.1 [11000, 11000] none (by decide)).2.1 rfl),
   (c2_duplicate_only_bulk_errors_absorbed.2 [11000, 12582] none 12582
      (by decide) (by decide)).1⟩

/-- Counterexample for C3 as stated: with a failing recovery (a find
error on the staging scan) the startup goroutine still starts the
reader — startup is not aborted. -/
theorem c3_reader_started_despite_recovery_failure :
    StartAction.startReaderFromMaster ∈
      startupGoroutine (some (.other "find pending batches failed"))
        "" false true true true := by decide

/-- Claim C3 (corrected).  When `RecoverPendingBatches` fails at
startup, `main` logs a warning and continues: the reader phase that
follows is identical to the one taken when recovery succeeds, so in
particular the reader is started in exactly the same cases.  The source comment
says not to fail startup and to continue with replication. -/
theorem c3_recovery_failure_logged_and_startup_continues
    (e : GoErr) (g : String) (ok parseOK masterOK startOK : Bool) :
    startupGoroutine (some e) g ok parseOK masterOK startOK
      = [.runRecovery, .logRecoveryWarning] ++ readerPhase g ok parseOK masterOK startOK
    ∧ startupGoroutine none g ok parseOK masterOK startOK
      = [.runRecovery] ++ readerPhase g ok parseOK masterOK startOK
    ∧ (startupGoroutine (some e) g ok parseOK masterOK startOK).filter
          (fun a => a.isReaderStart)
      = (startupGoroutine none g ok parseOK masterOK startOK).filter
          (fun a => a.isReaderStart) := by
  refine ⟨rfl, rfl, ?_⟩
  simp [startupGoroutine, StartAction.isReaderStart]

/-- Claim C4 (confirmed).  Recovery archives every pending staging
document, stamping `archivedAt`, leaves `events` and `offsets` exactly
as they were (no re-commit, no offset advance), leaves no document in
status `pending`, and in the startup goroutine the recovery call is the
first action, strictly before any reader start. -/
theorem c4_recovery_archives_pending_without_recommit
    (now : Int) (st : StoreState) :
    (RecoverPendingBatches now st).events = st.events
    ∧ (RecoverPendingBatches now st).offsets = st.offsets
    ∧ (∀ d, d ∈ st.staging → d.status = "pending" →
        archiveDoc now d ∈ (RecoverPendingBatches now st).staging
        ∧ (archiveDoc now d).status = "archived"
        ∧ (archiveDoc now d).archivedAt = some now)
    ∧ (∀ d2, d2 ∈ (RecoverPendingBatches now st).staging → d2.status ≠ "pending")
    ∧ (∀ (recoveryErr : Option GoErr) (g : String) (ok p m s : Bool),
        (startupGoroutine recoveryErr g ok p m s).head? = some .runRecovery
        ∧ (∀ i a, (startupGoroutine recoveryErr g ok p m s)[i]? = some a →
            a.isReaderStart = true → 1 ≤ i)) := by
  refine ⟨rfl, rfl, ?_, ?_, ?_⟩
  · intro d hd hp
    refine ⟨?_, rfl, rfl⟩
    have : (if d.status = "pending" then archiveDoc now d else d) = archiveDoc now d := by
      simp [hp]
    exact this ▸ List.mem_map_of_mem _ hd
  · intro d2 hd2
    simp only [RecoverPendingBatches, List.mem_map] at hd2
    obtain ⟨d, _, hdeq⟩ := hd2
    by_cases hp : d.status = "pending"
    · rw [if_pos hp] at hdeq
      rw [← hdeq]
      simp [archiveDoc]
    · rw [if_neg hp] at hdeq
      rw [← hdeq]
      exact hp
  · intro recoveryErr g ok p m s
    constructor
    · cases recoveryErr <;> simp [startupGoroutine]
    · intro i a hia hstart
      rcases i with _ | i
      · exfalso
        have h0 : (startupGoroutine recoveryErr g ok p m s)[0]? = some .runRecovery := by
          cases recoveryErr <;> simp [startupGoroutine]
        rw [h0] at hia
        injection hia with hia2
        rw [← hia2] at hstart
        simp [StartAction.isReaderStart] at hstart
      · omega

/-- Witness for C4 at a concrete input: recovery of a store whose
staging holds one pending document archives that document. -/
theorem c4_recovery_archives_pending_without_recommit_witness :
    archiveDoc 7 ⟨"b1", "pending", none⟩ ∈
      (RecoverPendingBatches 7 ⟨[], [], [⟨"b1", "pending", none⟩]⟩).staging
    ∧ (archiveDoc 7 ⟨"b1", "pending", none⟩).status = "archived" :=
  have h := (c4_recovery_archives_pending_without_recommit 7
      ⟨[], [], [⟨"b1", "pending", none⟩]⟩).2.2.1
    ⟨"b1", "pending", none⟩ (by decide) rfl
  ⟨h.1, h.2.1⟩

theorem zip_getElem_eq {α β : Type} (as : List α) (bs : List β) (i : Nat)
    (a : α) (b : β) (ha : as[i]? = some a) (hb : bs[i]? = some b) :
    (as.zip bs)[i]? = some (a, b) := by
  rw [List.getElem?_zip_eq_some]
  exact ⟨ha, hb⟩

/-- Claim C5 (confirmed).  The change maps of `OnRow` are built
column-wise over indexes `0 ≤ i < min (len colNames) (len row)`, indexes
beyond that bound contributing nothing: an insert entry is
`(colNames[i], {f: nil, t: row[i]})`, a delete entry is
`(colNames[i], {f: row[i], t: nil})`, and an update has an entry exactly
for the indexes present in the column list and in both the before and
the after row whose two values differ under deep equality. -/
theorem c5_change_map_bounds_and_semantics
    (cols : List String) (row before after : List Val) :
    (insertChg cols row).length = min cols.length row.length
    ∧ (deleteChg cols row).length = min cols.length row.length
    ∧ (∀ (i : Nat) (c : String) (v : Val), cols[i]? = some c → row[i]? = some v →
        (insertChg cols row)[i]? = some (c, ⟨none, some v⟩)
        ∧ (deleteChg cols row)[i]? = some (c, ⟨some v, none⟩))
    ∧ (∀ (c : String) (dlt : DeltaM), (c, dlt) ∈ updateChg cols before after ↔
        ∃ (i : Nat) (bv av : Val), cols[i]? = some c ∧ before[i]? = some bv
          ∧ after[i]? = some av ∧ bv ≠ av ∧ dlt = ⟨some bv, some av⟩) := by
  refine ⟨?_, ?_, ?_, ?_⟩
  · simp [insertChg]
  · simp [deleteChg]
  · intro i c v hc hv
    constructor
    · simp only [insertChg]
      rw [List.getElem?_map, zip_getElem_eq cols row i c v hc hv]
      rfl
    · simp only [deleteChg]
      rw [List.getElem?_map, zip_getElem_eq cols row i c v hc hv]
      rfl
  · intro c dlt
    constructor
    · intro hmem
      simp only [updateChg, List.mem_map, List.mem_filter] at hmem
      obtain ⟨x, ⟨hx, hne⟩, hfx⟩ := hmem
      obtain ⟨i, hi⟩ := List.mem_iff_getElem?.mp hx
      rw [List.getElem?_zip_eq_some] at hi
      obtain ⟨hc1, hp⟩ := hi
      rw [List.getElem?_zip_eq_some] at hp
      obtain ⟨hb1, ha1⟩ := hp
      have hx1 : x.1 = c := congrArg Prod.fst hfx
      have hx2 : (⟨some x.2.1, some x.2.2⟩ : DeltaM) = dlt := congrArg Prod.snd hfx
      refine ⟨i, x.2.1, x.2.2, ?_, hb1, ha1, ?_, hx2.symm⟩
      · rw [← hx1]
        exact hc1
      · simpa using hne
    · rintro ⟨i, bv, av, hc2, hb, ha, hne, rfl⟩
      simp only [updateChg, List.mem_map, List.mem_filter]
      refine ⟨(c, bv, av), ⟨?_, by simpa using hne⟩, rfl⟩
      apply List.mem_iff_getElem?.mpr
      exact ⟨i, zip_getElem_eq cols (before.zip after) i c (bv, av) hc2
        (zip_getElem_eq before after i bv av hb ha)⟩

/-- Witness for C5 at a concrete input: a two-column table whose row has
only one value produces a single insert entry, and an update changing
only the second column produces exactly that entry. -/
theorem c5_change_map_bounds_and_semantics_witness :
    (insertChg ["a", "b"] [.vint 1])[0]? = some ("a", ⟨none, some (.vint 1)⟩)
    ∧ (("b", (⟨some (.vint 2), some (.vint 3)⟩ : DeltaM)) ∈
        updateChg ["a", "b"] [.vint 1, .vint 2] [.vint 1, .vint 3]) :=
  ⟨((c5_change_map_bounds_and_semantics ["a", "b"] [.vint 1] [] []).2.2.1
      0 "a" (.vint 1) rfl rfl).1,
   ((c5_change_map_bounds_and_semantics ["a", "b"] [] [.vint 1, .vint 2]
        [.vint 1, .vint 3]).2.2.2 "b" ⟨some (.vint 2), some (.vint 3)⟩).mpr
      ⟨1, .vint 2, .vint 3, rfl, rfl, rfl, by decide, rfl⟩⟩

/-- Claim C9 (confirmed).  The update-branch pairing of `OnRow` reads
indexes `i` and `i + 1` for each even `i` below the row count: every
access is in bounds exactly when the rows list has even length, and the
resulting pairs are `(rows[2k], rows[2k+1])`. -/
theorem c9_update_pairing_in_bounds_iff_even (rows : List (List Val)) :
    ((updatePairs rows).isSome ↔ rows.length % 2 = 0)
    ∧ (∀ ps, updatePairs rows = some ps →
        ps.length * 2 = rows.length
        ∧ ∀ (k : Nat) (b a : List Val), ps[k]? = some (b, a) →
            rows[2 * k]? = some b ∧ rows[2 * k + 1]? = some a) := by
  induction rows using updatePairs.induct with
  | case1 =>
    refine ⟨by simp [updatePairs], ?_⟩
    intro ps hps
    simp [updatePairs] at hps
    subst hps
    simp
  | case2 r =>
    refine ⟨by simp [updatePairs], ?_⟩
    intro ps hps
    simp [updatePairs] at hps
  | case3 b a rest ih =>
    refine ⟨?_, ?_⟩
    · rw [updatePairs]
      have h1 := ih.1
      rcases hrest : updatePairs rest with _ | ps2
      · rw [hrest] at h1
        simp at h1 ⊢
        omega
      · rw [hrest] at h1
        simp at h1 ⊢
        omega
    · intro ps hps
      rw [updatePairs] at hps
      rcases hrest : updatePairs rest with _ | ps2
      · rw [hrest] at hps
        simp at hps
      · rw [hrest] at hps
        simp at hps
        obtain ⟨hlen, hget⟩ := ih.2 ps2 hrest
        subst hps
        constructor
        · simp only [List.length_cons]
          omega
        · intro k bb aa hk
          rcases k with _ | k
          · rw [List.getElem?_cons_zero] at hk
            injection hk with hk2
            constructor
            · rw [show (2 : Nat) * 0 = 0 from rfl, List.getElem?_cons_zero]
              exact congrArg some (congrArg Prod.fst hk2)
            · rw [show (2 : Nat) * 0 + 1 = 0 + 1 from rfl, List.getElem?_cons_succ,
                List.getElem?_cons_zero]
              exact congrArg some (congrArg Prod.snd hk2)
          · rw [List.getElem?_cons_succ] at hk
            have h2 := hget k bb aa hk
            constructor
            · rw [show 2 * (k + 1) = 2 * k + 1 + 1 by omega, List.getElem?_cons_succ,
                List.getElem?_cons_succ]
              exact h2.1
            · rw [show 2 * (k + 1) + 1 = 2 * k + 1 + 1 + 1 by omega,
                List.getElem?_cons_succ, List.getElem?_cons_succ]
              exact h2.2

/-- Witness for C9 at a concrete input: a two-row update event is fully
paired in bounds. -/
theorem c9_update_pairing_in_bounds_iff_even_witness :
    ([([Val.vint 1], [Val.vint 2])] : List (List Val × List Val)).length * 2
        = ([[Val.vint 1], [Val.vint 2]] : List (List Val)).length
    ∧ ([[Val.vint 1], [Val.vint 2]] : List (List Val))[0]? = some [Val.vint 1] :=
  have h := (c9_update_pairing_in_bounds_iff_even [[Val.vint 1], [Val.vint 2]]).2
    [([Val.vint 1], [Val.vint 2])] rfl
  ⟨h.1, (h.2 0 [Val.vint 1] [Val.vint 2] rfl).1⟩

/-- Claim C10 (confirmed).  `OnTableChanged` always returns nil: it
removes the schema-cache entry for `schema.table`, flushes the current
batch (clearing it on success, keeping it on failure), and a flush
failure is not propagated — the returned error is nil in every case. -/
theorem c10_onTableChanged_always_nil (flushEnv : Option GoErr) (st : HandlerState)
    (schema table : String) :
    (onTableChanged flushEnv st schema table).2 = none
    ∧ (∀ cols, (schema ++ "." ++ table, cols) ∉
        (onTableChanged flushEnv st schema table).1.tableSchemas)
    ∧ (onTableChanged flushEnv st schema table).1.batch
        = (match flushEnv with
           | none => []
           | some _ => st.batch) := by
  refine ⟨rfl, ?_, ?_⟩
  · intro cols hmem
    simp only [onTableChanged, flushStep] at hmem
    split at hmem
    · simp [List.mem_filter] at hmem
    · split at hmem <;> simp [List.mem_filter] at hmem
  · simp only [onTableChanged, flushStep]
    rcases hb : st.batch with _ | ⟨x, xs⟩
    · cases flushEnv <;> simp [hb]
    · cases flushEnv <;> simp [hb]

/-- Witness for C10 at a concrete input: a failing flush still yields a
nil return and the schema entry is gone. -/
theorem c10_onTableChanged_always_nil_witness :
    (onTableChanged (some (.cmdErr 64))
        ⟨[("d.t", ["a"])], [addDoc 19800 "d" "t" 0 "1" [] "i" "f" 4 "g"]⟩
        "d" "t").2 = none
    ∧ ("d" ++ "." ++ "t", ["a"]) ∉
        (onTableChanged (some (.cmdErr 64))
          ⟨[("d.t", ["a"])], [addDoc 19800 "d" "t" 0 "1" [] "i" "f" 4 "g"]⟩
          "d" "t").1.tableSchemas :=
  have h := c10_onTableChanged_always_nil (some (.cmdErr 64))
    ⟨[("d.t", ["a"])], [addDoc 19800 "d" "t" 0 "1" [] "i" "f" 4 "g"]⟩ "d" "t"
  ⟨h.1, h.2.1 ["a"]⟩

theorem natDecAux_fuelIrrel :
    ∀ (f g n : Nat), n < f → n < g → natDecAux f n = natDecAux g n := by
  intro f
  induction f with
  | zero => intro g n hf; omega
  | succ f ih =>
    intro g n hf hg
    rcases g with _ | g
    · omega
    · rw [natDecAux, natDecAux]
      by_cases h : n < 10
      · simp [h]
      · simp only [h, if_false]
        have hdiv : n / 10 < n := Nat.div_lt_self (by omega) (by omega)
        rw [ih g (n / 10) (by omega) (by omega)]

theorem natDec_lt {n : Nat} (h : n < 10) : natDec n = [Nat.digitChar n] := by
  simp [natDec, natDecAux, h]

theorem natDec_ge {n : Nat} (h : 10 ≤ n) :
    natDec n = natDec (n / 10) ++ [Nat.digitChar (n % 10)] := by
  have hdiv : n / 10 < n := Nat.div_lt_self (by omega) (by omega)
  rw [natDec, natDecAux]
  simp only [show ¬(n < 10) by omega, if_false]
  rw [natDecAux_fuelIrrel n (n / 10 + 1) (n / 10) (by omega) (by omega)]
  rfl

theorem natDec_ne_nil (n : Nat) : natDec n ≠ [] := by
  by_cases h : n < 10
  · rw [natDec_lt h]
    simp
  · rw [natDec_ge (by omega)]
    simp

theorem digitChar_inj_lt :
    ∀ a, a < 10 → ∀ b, b < 10 → Nat.digitChar a = Nat.digitChar b → a = b := by decide

theorem digitChar_isDigit : ∀ a, a < 10 → (Nat.digitChar a).isDigit = true := by decide

theorem digitChar_ne_minus : ∀ a, a < 10 → Nat.digitChar a ≠ Char.ofNat 45 := by decide

theorem natDec_chars_digit (n : Nat) : ∀ c ∈ natDec n, c.isDigit = true := by
  induction n using Nat.strong_induction_on with
  | _ n ih =>
    intro c hc
    by_cases h : n < 10
    · rw [natDec_lt h] at hc
      simp at hc
      rw [hc]
      exact digitChar_isDigit n h
    · rw [natDec_ge (by omega)] at hc
      rcases List.mem_append.mp hc with h1 | h1
      · exact ih (n / 10) (Nat.div_lt_self (by omega) (by omega)) c h1
      · simp at h1
        rw [h1]
        exact digitChar_isDigit _ (Nat.mod_lt _ (by omega))

theorem natDec_no_minus (n : Nat) : ∀ c ∈ natDec n, c ≠ Char.ofNat 45 := by
  intro c hc
  have := natDec_chars_digit n c hc
  intro heq
  rw [heq] at this
  simp [Char.isDigit, Char.ofNat] at this

theorem natDec_inj : ∀ (n m : Nat), natDec n = natDec m → n = m := by
  intro n
  induction n using Nat.strong_induction_on with
  | _ n ih =>
    intro m h
    by_cases hn : n < 10 <;> by_cases hm : m < 10
    · rw [natDec_lt hn, natDec_lt hm] at h
      simp at h
      exact digitChar_inj_lt n hn m hm h
    · rw [natDec_lt hn, natDec_ge (show 10 ≤ m by omega)] at h
      have hlen := congrArg List.length h
      rw [List.length_append] at hlen
      simp only [List.length_cons, List.length_nil] at hlen
      have hpos := List.length_pos.mpr (natDec_ne_nil (m / 10))
      omega
    · rw [natDec_ge (show 10 ≤ n by omega), natDec_lt hm] at h
      have hlen := congrArg List.length h
      rw [List.length_append] at hlen
      simp only [List.length_cons, List.length_nil] at hlen
      have hpos := List.length_pos.mpr (natDec_ne_nil (n / 10))
      omega
    · rw [natDec_ge (show 10 ≤ n by omega)] at h
      rw [natDec_ge (show 10 ≤ m by omega)] at h
      have h2 := List.append_inj' h (by simp)
      have e1 := ih (n / 10) (Nat.div_lt_self (by omega) (by omega)) (m / 10) h2.1
      have e2 : n % 10 = m % 10 := by
        have h3 := h2.2
        simp at h3
        exact digitChar_inj_lt _ (Nat.mod_lt _ (by omega)) _ (Nat.mod_lt _ (by omega)) h3
      omega

theorem intDec_inj : ∀ (a b : Int), intDec a = intDec b → a = b := by
  intro a b h
  by_cases ha : a < 0 <;> by_cases hb : b < 0
  · rw [intDec, if_pos ha, intDec, if_pos hb] at h
    simp at h
    have := natDec_inj _ _ h
    omega
  · rw [intDec, if_pos ha, intDec, if_neg hb] at h
    exfalso
    rcases hne : natDec b.toNat with _ | ⟨c, t⟩
    · exact natDec_ne_nil _ hne
    · rw [hne] at h
      injection h with h1 h2
      exact natDec_no_minus b.toNat c (by rw [hne]; simp) h1.symm
  · rw [intDec, if_neg ha, intDec, if_pos hb] at h
    exfalso
    rcases hne : natDec a.toNat with _ | ⟨c, t⟩
    · exact natDec_ne_nil _ hne
    · rw [hne] at h
      injection h with h1 h2
      exact natDec_no_minus a.toNat c (by rw [hne]; simp) h1
  · rw [intDec, if_neg ha, intDec, if_neg hb] at h
    have := natDec_inj _ _ h
    omega

theorem natDecS_inj (a b : Nat) (h : natDecS a = natDecS b) : a = b := by
  apply natDec_inj
  injection h

theorem intDecS_inj (a b : Int) (h : intDecS a = intDecS b) : a = b := by
  apply intDec_inj
  injection h

theorem natDec_length_le : ∀ (k n : Nat), n < 10 ^ (k + 1) → (natDec n).length ≤ k + 1 := by
  intro k
  induction k with
  | zero =>
    intro n hn
    rw [natDec_lt (by simpa using hn)]
    simp
  | succ k ih =>
    intro n hn
    by_cases h : n < 10
    · rw [natDec_lt h]
      simp
    · rw [natDec_ge (by omega)]
      have hdiv : n / 10 < 10 ^ (k + 1) := by
        rw [Nat.div_lt_iff_lt_mul (by omega)]
        calc n < 10 ^ (k + 1 + 1) := hn
          _ = 10 ^ (k + 1) * 10 := by ring
      have := ih (n / 10) hdiv
      simp only [List.length_append, List.length_cons, List.length_nil]
      omega

theorem data_mk (l : List Char) : (String.mk l).data = l := rfl

theorem string_data_inj {a b : String} (h : a.data = b.data) : a = b := by
  cases a
  cases b
  exact congrArg String.mk h

/-- Claim C7 (confirmed).  The id string hashed by `makeID` is a pure
function of the tuple (db, table, PK, ts, op, file, offset,
position-token): equal tuples give the equal string, and the string is
injective in every single component — changing any one component while
the others are fixed changes the string that is hashed.  In the source
the `gtid` argument meets a `%d` verb and `pos` overflows the verb
list, but both still appear verbatim inside the `%!d(string=...)` and
`%!(EXTRA uint64=...)` renderings, so sensitivity to every component is
preserved. -/
theorem c7_makeID_deterministic_and_component_sensitive :
    (∀ (db tbl pk : String) (ts : Int) (op file : String) (pos : Nat) (gtid : String)
        (db2 tbl2 pk2 : String) (ts2 : Int) (op2 file2 : String) (pos2 : Nat)
        (gtid2 : String),
        db = db2 → tbl = tbl2 → pk = pk2 → ts = ts2 → op = op2 → file = file2 →
        pos = pos2 → gtid = gtid2 →
        makeIDString db tbl pk ts op file pos gtid
          = makeIDString db2 tbl2 pk2 ts2 op2 file2 pos2 gtid2)
    ∧ (∀ db tbl pk ts op file pos gtid db2,
        makeIDString db tbl pk ts op file pos gtid
          = makeIDString db2 tbl pk ts op file pos gtid → db = db2)
    ∧ (∀ db tbl pk ts op file pos gtid tbl2,
        makeIDString db tbl pk ts op file pos gtid
          = makeIDString db tbl2 pk ts op file pos gtid → tbl = tbl2)
    ∧ (∀ db tbl pk ts op file pos gtid pk2,
        makeIDString db tbl pk ts op file pos gtid
          = makeIDString db tbl pk2 ts op file pos gtid → pk = pk2)
    ∧ (∀ db tbl pk ts op file pos gtid ts2,
        makeIDString db tbl pk ts op file pos gtid
          = makeIDString db tbl pk ts2 op file pos gtid → ts = ts2)
    ∧ (∀ db tbl pk ts op file pos gtid op2,
        makeIDString db tbl pk ts op file pos gtid
          = makeIDString db tbl pk ts op2 file pos gtid → op = op2)
    ∧ (∀ db tbl pk ts op file pos gtid file2,
        makeIDString db tbl pk ts op file pos gtid
          = makeIDString db tbl pk ts op file2 pos gtid → file = file2)
    ∧ (∀ db tbl pk ts op file pos gtid pos2,
        makeIDString db tbl pk ts op file pos gtid
          = makeIDString db tbl pk ts op file pos2 gtid → pos = pos2)
    ∧ (∀ db tbl pk ts op file pos gtid gtid2,
        makeIDString db tbl pk ts op file pos gtid
          = makeIDString db tbl pk ts op file pos gtid2 → gtid = gtid2) := by
  refine ⟨?_, ?_, ?_, ?_, ?_, ?_, ?_, ?_, ?_⟩
  · intro db tbl pk ts op file pos gtid db2 tbl2 pk2 ts2 op2 file2 pos2 gtid2
      h1 h2 h3 h4 h5 h6 h7 h8
    subst h1; subst h2; subst h3; subst h4; subst h5; subst h6; subst h7; subst h8
    rfl
  · intro db tbl pk ts op file pos gtid db2 h
    have hd := congrArg String.data h
    simp only [makeIDString, String.data_append, intDecS, natDecS, data_mk,
      List.append_assoc] at hd
    exact string_data_inj (List.append_cancel_right hd)
  · intro db tbl pk ts op file pos gtid tbl2 h
    have hd := congrArg String.data h
    simp only [makeIDString, String.data_append, intDecS, natDecS, data_mk,
      List.append_assoc] at hd
    iterate 2 (replace hd := List.append_cancel_left hd)
    exact string_data_inj (List.append_cancel_right hd)
  · intro db tbl pk ts op file pos gtid pk2 h
    have hd := congrArg String.data h
    simp only [makeIDString, String.data_append, intDecS, natDecS, data_mk,
      List.append_assoc] at hd
    iterate 4 (replace hd := List.append_cancel_left hd)
    exact string_data_inj (List.append_cancel_right hd)
  · intro db tbl pk ts op file pos gtid ts2 h
    have hd := congrArg String.data h
    simp only [makeIDString, String.data_append, intDecS, natDecS, data_mk,
      List.append_assoc] at hd
    iterate 6 (replace hd := List.append_cancel_left hd)
    exact intDec_inj _ _ (List.append_cancel_right hd)
  · intro db tbl pk ts op file pos gtid op2 h
    have hd := congrArg String.data h
    simp only [makeIDString, String.data_append, intDecS, natDecS, data_mk,
      List.append_assoc] at hd
    iterate 8 (replace hd := List.append_cancel_left hd)
    exact string_data_inj (List.append_cancel_right hd)
  · intro db tbl pk ts op file pos gtid file2 h
    have hd := congrArg String.data h
    simp only [makeIDString, String.data_append, intDecS, natDecS, data_mk,
      List.append_assoc] at hd
    iterate 10 (replace hd := List.append_cancel_left hd)
    exact string_data_inj (List.append_cancel_right hd)
  · intro db tbl pk ts op file pos gtid pos2 h
    have hd := congrArg String.data h
    simp only [makeIDString, String.data_append, intDecS, natDecS, data_mk,
      List.append_assoc] at hd
    iterate 16 (replace hd := List.append_cancel_left hd)
    exact natDec_inj _ _ (List.append_cancel_right hd)
  · intro db tbl pk ts op file pos gtid gtid2 h
    have hd := congrArg String.data h
    simp only [makeIDString, String.data_append, intDecS, natDecS, data_mk,
      List.append_assoc] at hd
    iterate 13 (replace hd := List.append_cancel_left hd)
    exact string_data_inj (List.append_cancel_right hd)

/-- Witness for C7 at concrete inputs: the db and pos injectivity
conjuncts applied at equal concrete arguments. -/
theorem c7_makeID_deterministic_and_component_sensitive_witness :
    ("d" : String) = "d" ∧ (7 : Nat) = 7 :=
  ⟨c7_makeID_deterministic_and_component_sensitive.2.1
      "d" "t" "p" 3 "i" "f" 7 "g" "d" rfl,
   c7_makeID_deterministic_and_component_sensitive.2.2.2.2.2.2.2.1
      "d" "t" "p" 3 "i" "f" 7 "g" 7 rfl⟩

theorem formatTS_data (off t : Int) :
    (formatTS off t).data
      = natDecPad 4 (civilDateOf off t).1.toNat
        ++ Char.ofNat 45 :: natDecPad 2 (civilDateOf off t).2.1
        ++ Char.ofNat 45 :: natDecPad 2 (civilDateOf off t).2.2
        ++ Char.ofNat 32 :: natDecPad 2 (daySecsOf off t / 3600)
        ++ Char.ofNat 58 :: natDecPad 2 (daySecsOf off t % 3600 / 60)
        ++ Char.ofNat 58 :: natDecPad 2 (daySecsOf off t % 60) := rfl

theorem formatTS_ne_empty (off t : Int) : formatTS off t ≠ "" := by
  intro h
  have hd := congrArg String.data h
  rw [formatTS_data] at hd
  have he : ("" : String).data = [] := rfl
  rw [he] at hd
  rcases List.append_eq_nil.mp hd with ⟨h1, h2⟩
  simp at h2

theorem padZero_length (w : Nat) (l : List Char) (h : l.length ≤ w) :
    (padZero w l).length = w := by
  simp [padZero]
  omega

theorem natDecPad_length_two {n : Nat} (h : n < 100) : (natDecPad 2 n).length = 2 :=
  padZero_length 2 _ (natDec_length_le 1 n h)

theorem natDecPad_length_four {n : Nat} (h : n < 10000) : (natDecPad 4 n).length = 4 :=
  padZero_length 4 _ (natDec_length_le 3 n h)

theorem natDecPad_chars_digit (w n : Nat) :
    ∀ c ∈ natDecPad w n, c.isDigit = true := by
  intro c hc
  rcases List.mem_append.mp hc with h1 | h1
  · have := List.eq_of_mem_replicate h1
    rw [this]
    decide
  · exact natDec_chars_digit n c h1

theorem daySecsOf_lt (off t : Int) : daySecsOf off t < 86400 := by
  have h1 := Int.emod_nonneg (t + off) (show (86400 : Int) ≠ 0 by norm_num)
  have h2 := Int.emod_lt_of_pos (t + off) (show (0 : Int) < 86400 by norm_num)
  have he : daySecsOf off t = ((t + off) % 86400).toNat := rfl
  rw [he]
  omega

/-- Counterexample for C8 as stated: a concrete event document built by
`addDoc` has no field named `ts_display`; the display-timestamp field
is serialized under the bson tag `ts_ist`. -/
theorem c8_no_ts_display_field :
    "ts_display" ∉ eventDocBsonFields (addDoc 19800 "db" "t" 0 "1" [] "i" "f" 4 "g")
    ∧ "ts_ist" ∈ eventDocBsonFields (addDoc 19800 "db" "t" 0 "1" [] "i" "f" 4 "g")
    ∧ (addDoc 19800 "db" "t" 0 "1" [] "i" "f" 4 "g").tsIST
        = "1970-01-01 05:30:00" := by
  refine ⟨by decide, by decide, by decide⟩

/-- Claim C8 (corrected).  Every event document built by `addDoc`
carries its display timestamp in a field named `ts_ist` (bson tag
`ts_ist,omitempty`; no field is named `ts_display`), always present
because the formatted string is nonempty, holding
`ts.In(loc).Format("2006-01-02 15:04:05")` — and whenever the calendar
components lie in their printable ranges (year below 10000, month and
day below 100; the hour, minute and second ranges hold unconditionally)
that string has the `YYYY-MM-DD HH:MM:SS` shape: six all-digit groups
of widths 4-2-2-2-2-2 joined by `-`, `-`, space, `:`, `:`. -/
theorem c8_ts_ist_field_formatted
    (locOffset : Int) (db tbl : String) (tsSec : Int) (pk : String)
    (chg : List (String × DeltaM)) (op lastFile : String) (lastPos : Nat)
    (lastGTID : String) :
    "ts_ist" ∈ eventDocBsonFields
        (addDoc locOffset db tbl tsSec pk chg op lastFile lastPos lastGTID)
    ∧ "ts_display" ∉ eventDocBsonFields
        (addDoc locOffset db tbl tsSec pk chg op lastFile lastPos lastGTID)
    ∧ (addDoc locOffset db tbl tsSec pk chg op lastFile lastPos lastGTID).tsIST
        = formatTS locOffset tsSec
    ∧ ((civilDateOf locOffset tsSec).1.toNat < 10000 →
        (civilDateOf locOffset tsSec).2.1 < 100 →
        (civilDateOf locOffset tsSec).2.2 < 100 →
        ∃ y4 m2 d2 h2 mi2 s2 : List Char,
          (formatTS locOffset tsSec).data
              = y4 ++ Char.ofNat 45 :: m2 ++ Char.ofNat 45 :: d2
                ++ Char.ofNat 32 :: h2 ++ Char.ofNat 58 :: mi2 ++ Char.ofNat 58 :: s2
          ∧ y4.length = 4 ∧ m2.length = 2 ∧ d2.length = 2
          ∧ h2.length = 2 ∧ mi2.length = 2 ∧ s2.length = 2
          ∧ (y4 ++ m2 ++ d2 ++ h2 ++ mi2 ++ s2).all Char.isDigit = true) := by
  refine ⟨?_, ?_, rfl, ?_⟩
  · simp only [eventDocBsonFields, addDoc]
    have hne := formatTS_ne_empty locOffset tsSec
    simp [hne]
  · simp only [eventDocBsonFields, addDoc]
    intro hmem
    rcases List.mem_append.mp hmem with h1 | h1
    · rcases List.mem_append.mp h1 with h2 | h2
      · rcases List.mem_append.mp h2 with h3 | h3
        · simp at h3
        · split at h3 <;> simp at h3
      · simp at h2
    · split at h1 <;> simp at h1
  · intro hy hm hd
    refine ⟨natDecPad 4 (civilDateOf locOffset tsSec).1.toNat,
      natDecPad 2 (civilDateOf locOffset tsSec).2.1,
      natDecPad 2 (civilDateOf locOffset tsSec).2.2,
      natDecPad 2 (daySecsOf locOffset tsSec / 3600),
      natDecPad 2 (daySecsOf locOffset tsSec % 3600 / 60),
      natDecPad 2 (daySecsOf locOffset tsSec % 60),
      formatTS_data locOffset tsSec,
      natDecPad_length_four hy, natDecPad_length_two hm, natDecPad_length_two hd,
      natDecPad_length_two ?_, natDecPad_length_two ?_, natDecPad_length_two ?_, ?_⟩
    · have := daySecsOf_lt locOffset tsSec
      omega
    · omega
    · omega
    · rw [List.all_eq_true]
      intro c hc
      rcases List.mem_append.mp hc with h1 | h1
      · rcases List.mem_append.mp h1 with h2 | h2
        · rcases List.mem_append.mp h2 with h3 | h3
          · rcases List.mem_append.mp h3 with h4 | h4
            · rcases List.mem_append.mp h4 with h5 | h5
              · exact natDecPad_chars_digit _ _ c h5
              · exact natDecPad_chars_digit _ _ c h5
            · exact natDecPad_chars_digit _ _ c h4
          · exact natDecPad_chars_digit _ _ c h3
        · exact natDecPad_chars_digit _ _ c h2
      · exact natDecPad_chars_digit _ _ c h1

/-- Witness for C8 at a concrete input: the epoch instant under the
Asia/Kolkata offset displays as 1970-01-01 05:30:00, whose calendar
components are in range. -/
theorem c8_ts_ist_field_formatted_witness :
    "ts_ist" ∈ eventDocBsonFields (addDoc 19800 "db" "t" 0 "1" [] "i" "f" 4 "g")
    ∧ ∃ y4 m2 d2 h2 mi2 s2 : List Char,
        (formatTS 19800 0).data
            = y4 ++ Char.ofNat 45 :: m2 ++ Char.ofNat 45 :: d2
              ++ Char.ofNat 32 :: h2 ++ Char.ofNat 58 :: mi2 ++ Char.ofNat 58 :: s2
        ∧ y4.length = 4 ∧ m2.length = 2 ∧ d2.length = 2
        ∧ h2.length = 2 ∧ mi2.length = 2 ∧ s2.length = 2
        ∧ (y4 ++ m2 ++ d2 ++ h2 ++ mi2 ++ s2).all Char.isDigit = true :=
  have h := c8_ts_ist_field_formatted 19800 "db" "t" 0 "1" [] "i" "f" 4 "g"
  ⟨h.1, h.2.2.2 (by decide) (by decide) (by decide)⟩
